import Mathlib

/-!
# A shallow embedding of package `fetch` (src/main.go)

The package is a thin JSON helper over Go's `net/http`: a handle `XHR` made by
`New`, four handle methods and four free functions `GetJSON`, `PostJSON`,
`PutJSON`, `DeleteJSON`.

* Go maps are reference values with unique keys that may be nil.  A non-nil map
  is an association list with unique keys (`GoMap`), a nilable one is an
  `Option`.  Go leaves the iteration order of `range` open; here it is the order
  of the entries, and every general theorem holds for every map, so for every
  order of the caller's maps.
* A map that a call writes to is shared with the caller, so each operation
  returns, next to what the Go function returns, the map as the call leaves it.
* A call ends by returning `(int, error)`, by a run-time panic, or by leaving
  the process (`log.Fatalln`); `Outcome` keeps the three apart.
* What lies outside the package and is not a small pure function (URL parsing,
  the JSON codec, the network) is a parameter, `Env`.  The small pure library
  functions the package's behaviour depends on (`url.QueryEscape`,
  `url.Values.Encode`, `textproto.CanonicalMIMEHeaderKey`, `Header.Add`) are
  written out after the Go standard library.
* Go strings are byte strings; the embedding uses Lean strings, that is, the Go
  strings that are valid UTF-8.
-/

namespace Fetch

/-! ## Data model -/

/-- A non-nil Go map with string keys: an association list with unique keys. -/
abbrev GoMap (V : Type) := AList (fun _ : String => V)

/-- A value of Go type `interface{}`, as far as the package looks at it: the
only thing it ever does with one is the type assertion `v.(string)`. -/
inductive Val where
  | str (s : String)
  | other (tag : Nat)
deriving DecidableEq, Repr

/-- Type `Headers` (`map[string]interface{}`), nil when `none`. -/
abbrev Headers := Option (GoMap Val)

/-- Type `Params` (`map[string]interface{}`), nil when `none`. -/
abbrev Params := Option (GoMap Val)

/-- A request body, `map[string]interface{}`, nil when `none`. -/
abbrev Body := Option (GoMap Val)

/-- The maps `url.Values` and `http.Header`, both `map[string][]string`. -/
abbrev MultiMap := GoMap (List String)

/-- The fields of `net/url.URL` that the package reads or writes, and those
that tell two URLs apart. -/
structure URL where
  Scheme : String
  Host : String
  Path : String
  RawQuery : String
  Fragment : String
deriving DecidableEq, Repr

/-- An `http.Client`, by its one configured field; `Timeout` is a
`time.Duration` in nanoseconds, and zero means no timeout. -/
structure Client where
  Timeout : Int
deriving DecidableEq, Repr

/-- An `http.Request` as `http.NewRequest` makes it. -/
structure Request where
  Method : String
  URL : URL
  Header : MultiMap
  Body : Option String
deriving DecidableEq

/-- An `http.Response`: status code and the bytes of the body. -/
structure Response where
  StatusCode : Int
  Body : String
deriving DecidableEq, Repr

/-- The run-time panics the package can raise. -/
inductive Panic where
  /-- Assignment to an entry of a nil map. -/
  | nilMapWrite
  /-- Field access through a nil `*http.Request`. -/
  | nilDeref
  /-- The type assertion `v.(string)` on a value that is not a string. -/
  | typeAssertion
deriving DecidableEq, Repr

/-- How a call ends. -/
inductive Outcome where
  /-- The call returns `(status, err)`; `err = none` is the nil error. -/
  | ret (status : Int) (err : Option String)
  /-- The call panics. -/
  | panic (p : Panic)
  /-- The process exits with the given code (`log.Fatalln` exits with 1). -/
  | exit (code : Nat)
deriving DecidableEq, Repr

/-- What lies outside the package. -/
structure Env where
  /-- The function `url.Parse` as `http.NewRequest` calls it. -/
  parse : String → Except String URL
  /-- The function `url.ParseQuery` as `URL.Query` calls it on `RawQuery`
  (errors dropped). -/
  parseQuery : String → MultiMap
  /-- The function `json.Marshal` on a request body. -/
  marshal : Body → Except String String
  /-- The method `http.Client.Do`: one round trip. -/
  Do : Client → Request → Except String Response
  /-- The result of `json.NewDecoder(resp.Body).Decode(&response)` on the
  bytes of a response body: the error, if any. -/
  decode : String → Option String

/-- Struct `XHR`. -/
structure XHR where
  BaseURL : String
  Headers : Headers
  client : Client
deriving DecidableEq

/-- The result of a free function: how the call ends, the caller's `headers`
map as the call leaves it, and the call of `client.Do`, if the call got that
far. -/
structure Run where
  out : Outcome
  headers : Headers
  sent : Option (Client × Request)
deriving DecidableEq

/-- The result of a handle method: how the call ends, the handle as the call
leaves it, and the call of `client.Do`, if the call got that far. -/
structure XRun where
  out : Outcome
  handle : XHR
  sent : Option (Client × Request)
deriving DecidableEq

/-! ## The library functions the package depends on -/

/-- The entries a `range` over a nilable map visits. -/
def rangeOf {V : Type} (m : Option (GoMap V)) : List (Sigma fun _ : String => V) :=
  match m with
  | none => []
  | some m => m.entries

/-- The UTF-8 bytes of a character. -/
def utf8Bytes (c : Char) : List Nat :=
  let n := c.toNat
  if n < 128 then [n]
  else if n < 2048 then [192 + n / 64, 128 + n % 64]
  else if n < 65536 then [224 + n / 4096, 128 + n / 64 % 64, 128 + n % 64]
  else [240 + n / 262144, 128 + n / 4096 % 64, 128 + n / 64 % 64, 128 + n % 64]

/-- The bytes of a Go string. -/
def bytesOf (s : String) : List Nat :=
  s.data.flatMap utf8Bytes

/-- The function `shouldEscape` of `net/url` in mode `encodeQueryComponent`:
only ASCII letters, digits and `-`, `_`, `.`, `~` stay as they are. -/
def shouldEscape (b : Nat) : Bool :=
  !((97 ≤ b && b ≤ 122) || (65 ≤ b && b ≤ 90) || (48 ≤ b && b ≤ 57)
    || b == 45 || b == 95 || b == 46 || b == 126)

/-- The digit table `upperhex` of `net/url`. -/
def upperhex (n : Nat) : Char :=
  "0123456789ABCDEF".data.getD n '0'

/-- One byte as `escape` of `net/url` writes it in mode
`encodeQueryComponent`: a space becomes `+`, any other escaped byte `%XX`. -/
def escapeByte (b : Nat) : List Char :=
  if shouldEscape b then
    if b = 32 then ['+'] else ['%', upperhex (b / 16), upperhex (b % 16)]
  else [Char.ofNat b]

/-- The function `url.QueryEscape`. -/
def QueryEscape (s : String) : String :=
  String.mk ((bytesOf s).flatMap escapeByte)

/-- Go's order on strings (bytewise, which on valid UTF-8 is the order of the
code points). -/
def strLE (a b : String) : Prop :=
  a.data ≤ b.data

instance : DecidableRel strLE :=
  fun a b => inferInstanceAs (Decidable (a.data ≤ b.data))

/-- Assignment `m[key] = append(m[key], value)` on a `map[string][]string`. -/
def MultiMap.append (m : MultiMap) (key value : String) : MultiMap :=
  m.insert key ((m.lookup key).getD [] ++ [value])

/-- The method `url.Values.Add`. -/
def Values.Add (v : MultiMap) (key value : String) : MultiMap :=
  v.append key value

/-- The `key=value` pieces `url.Values.Encode` writes: keys in sorted order,
the values of one key in their order, both escaped by `QueryEscape`. -/
def Values.pairs (v : MultiMap) : List String :=
  (v.keys.insertionSort strLE).flatMap fun k =>
    ((v.lookup k).getD []).map fun s => QueryEscape k ++ "=" ++ QueryEscape s

/-- The method `url.Values.Encode`: the pieces joined by `&`. -/
def Values.Encode (v : MultiMap) : String :=
  "&".intercalate (Values.pairs v)

/-- The function `validHeaderFieldByte` of `net/textproto`: the token
characters of RFC 7230. -/
def validHeaderFieldByte (c : Char) : Bool :=
  c.isAlphanum || c.toNat ∈ [33, 35, 36, 37, 38, 39, 42, 43, 45, 46, 94, 95, 96, 124, 126]

/-- The second loop of `canonicalMIMEHeaderKey`: upper case for the first
letter and for a letter after a dash, lower case for the others. -/
def canonLoop : Bool → List Char → List Char
  | _, [] => []
  | upper, c :: cs =>
    let c1 := if upper && c.isLower then c.toUpper
              else if !upper && c.isUpper then c.toLower else c
    c1 :: canonLoop (c1 == '-') cs

/-- The function `canonicalMIMEHeaderKey` of `net/textproto`: a key with a
byte that is no token character is returned as it is. -/
def canonicalMIMEHeaderKey (a : List Char) : List Char :=
  if a.any (fun c => !validHeaderFieldByte c && c != ' ') then a
  else if a.any (fun c => c == ' ') then a
  else canonLoop true a

/-- The quick check of `CanonicalMIMEHeaderKey`: `s` is returned unless a
letter has the wrong case before any invalid byte is met. -/
def canonicalScan (s : List Char) : Bool → List Char → List Char
  | _, [] => s
  | upper, c :: cs =>
    if !validHeaderFieldByte c then s
    else if upper && c.isLower then canonicalMIMEHeaderKey s
    else if !upper && c.isUpper then canonicalMIMEHeaderKey s
    else canonicalScan s (c == '-') cs

/-- The function `textproto.CanonicalMIMEHeaderKey`. -/
def CanonicalMIMEHeaderKey (s : String) : String :=
  String.mk (canonicalScan s.data true s.data)

/-- The method `http.Header.Add`: the value is appended under the canonical
form of the key. -/
def Header.Add (h : MultiMap) (key value : String) : MultiMap :=
  h.append (CanonicalMIMEHeaderKey key) value

/-- The function `http.NewRequest` for the four method names the package
uses (all valid): it fails exactly when the URL does not parse. -/
def NewRequest (env : Env) (method url : String) (body : Option String) :
    Except String Request :=
  match env.parse url with
  | .error e => .error e
  | .ok u => .ok { Method := method, URL := u, Header := ∅, Body := body }

/-! ## The package -/

/-- The loop `for k, v := range m { target.Add(k, v.(string)) }` of the free
functions, with `add` the method `Add` of the target: `none` when a value is
not a string and the type assertion panics. -/
def addAll (add : MultiMap → String → String → MultiMap) :
    MultiMap → List (Sigma fun _ : String => Val) → Option MultiMap
  | acc, [] => some acc
  | acc, ⟨k, .str s⟩ :: rest => addAll add (add acc k s) rest
  | _, ⟨_, .other _⟩ :: _ => none

/-- The loop `for k, v := range headers { _headers[k] = v }` of the handle
methods, on the handle's own map: `none` when an entry is assigned to a nil
map, which panics. -/
def setAll : Headers → List (Sigma fun _ : String => Val) → Option Headers
  | m, [] => some m
  | none, _ :: _ => none
  | some m, ⟨k, v⟩ :: rest => setAll (some (m.insert k v)) rest

/-- The two assignments under `// auto insert JSON headers`. -/
def jsonHeaders (m : GoMap Val) : GoMap Val :=
  (m.insert "Content-Type" (.str "application/json")).insert "Accept" (.str "application/json")

/-- The part from `// send request` to the end, the same in the four free
functions: a fresh `http.Client{}` does the round trip, the body is decoded,
and the status code is returned when both went well. `headers` is the caller's
map as the lines before left it. -/
def send (env : Env) (req : Request) (headers : Headers) : Run :=
  let client : Client := { Timeout := 0 }
  match env.Do client req with
  | .error e => ⟨.ret (-1) (some e), headers, some (client, req)⟩
  | .ok resp =>
    match env.decode resp.Body with
    | some e => ⟨.ret (-1) (some e), headers, some (client, req)⟩
    | none => ⟨.ret resp.StatusCode none, headers, some (client, req)⟩

/-- Function `New` (main.go 26-42). -/
def New (baseURL : String) (headers : Headers) (timeout : Int) : Except String XHR :=
  if baseURL = "" then
    .error "parameter \"baseURL\" is required"
  else
    .ok { BaseURL := baseURL
          Headers := some (headers.getD ∅)
          client := { Timeout := timeout } }

/-- Free function `GetJSON` (main.go 97-143). The decode target `response` is
part of `env.decode`. -/
def GetJSON (env : Env) (url : String) (params : Params) (headers : Headers) : Run :=
  match NewRequest env "GET" url none with
  | .error e => ⟨.ret (-1) (some e), headers, none⟩
  | .ok req =>
    match addAll Values.Add (env.parseQuery req.URL.RawQuery) (rangeOf params) with
    | none => ⟨.panic .typeAssertion, headers, none⟩
    | some q =>
      let req := { req with URL := { req.URL with RawQuery := Values.Encode q } }
      let hs := jsonHeaders (headers.getD ∅)
      let left := headers.map fun _ => hs
      match addAll Header.Add req.Header hs.entries with
      | none => ⟨.panic .typeAssertion, left, none⟩
      | some h => send env { req with Header := h } left

/-- Free functions `PostJSON` and `PutJSON` (main.go 146-180 and 183-217),
which differ in the method name only. A body that does not marshal ends the
process in `log.Fatalln`; the error of `http.NewRequest` is overwritten
unread, so a URL that does not parse leaves `req` nil and the first
`req.Header.Add` panics (the loop has at least the two entries just assigned
to visit); `headers` is written to without a nil check. -/
def sendBody (env : Env) (method url : String) (body : Body) (headers : Headers) : Run :=
  match env.marshal body with
  | .error _ => ⟨.exit 1, headers, none⟩
  | .ok b =>
    let made := NewRequest env method url (some b)
    match headers with
    | none => ⟨.panic .nilMapWrite, none, none⟩
    | some m =>
      let hs := jsonHeaders m
      match made with
      | .error _ => ⟨.panic .nilDeref, some hs, none⟩
      | .ok req =>
        match addAll Header.Add req.Header hs.entries with
        | none => ⟨.panic .typeAssertion, some hs, none⟩
        | some h => send env { req with Header := h } (some hs)

/-- Free function `PostJSON` (main.go 146-180). -/
def PostJSON (env : Env) (url : String) (body : Body) (headers : Headers) : Run :=
  sendBody env "POST" url body headers

/-- Free function `PutJSON` (main.go 183-217). -/
def PutJSON (env : Env) (url : String) (body : Body) (headers : Headers) : Run :=
  sendBody env "PUT" url body headers

/-- Free function `DeleteJSON` (main.go 220-257): as `GetJSON`, but `params`
is never read. -/
def DeleteJSON (env : Env) (url : String) (_params : Params) (headers : Headers) : Run :=
  match NewRequest env "DELETE" url none with
  | .error e => ⟨.ret (-1) (some e), headers, none⟩
  | .ok req =>
    let hs := jsonHeaders (headers.getD ∅)
    let left := headers.map fun _ => hs
    match addAll Header.Add req.Header hs.entries with
    | none => ⟨.panic .typeAssertion, left, none⟩
    | some h => send env { req with Header := h } left

/-- The result of a handle method whose call of a free function ended as `r`:
the map the free function was given is the handle's own, so the handle holds
it as the free function left it. -/
def XHR.after (x : XHR) (r : Run) : XRun :=
  ⟨r.out, { x with Headers := r.headers }, r.sent⟩

/-- The body shared by the four handle methods: `_headers := x.Headers` names
the handle's own map (a Go map is a reference), the per-call entries are
assigned into it, and the free function `call` is run on it; whatever is
written to `_headers` is written to `x.Headers`. The per-call map is only
read. -/
def XHR.through (x : XHR) (headers : Fetch.Headers) (call : Fetch.Headers → Run) : XRun :=
  match setAll x.Headers (rangeOf headers) with
  | none => ⟨.panic .nilMapWrite, x, none⟩
  | some hs => x.after (call hs)

/-- Method `(*XHR).GetJSON` (main.go 45-55). -/
def XHR.GetJSON (env : Env) (x : XHR) (path : String) (params : Params) (headers : Fetch.Headers) :
    XRun :=
  x.through headers fun hs => Fetch.GetJSON env (x.BaseURL ++ path) params hs

/-- Method `(*XHR).PostJSON` (main.go 58-68). -/
def XHR.PostJSON (env : Env) (x : XHR) (path : String) (body : Body) (headers : Fetch.Headers) :
    XRun :=
  x.through headers fun hs => Fetch.PostJSON env (x.BaseURL ++ path) body hs

/-- Method `(*XHR).PutJSON` (main.go 71-81). -/
def XHR.PutJSON (env : Env) (x : XHR) (path : String) (body : Body) (headers : Fetch.Headers) :
    XRun :=
  x.through headers fun hs => Fetch.PutJSON env (x.BaseURL ++ path) body hs

/-- Method `(*XHR).DeleteJSON` (main.go 84-94). -/
def XHR.DeleteJSON (env : Env) (x : XHR) (path : String) (params : Params) (headers : Fetch.Headers) :
    XRun :=
  x.through headers fun hs => Fetch.DeleteJSON env (x.BaseURL ++ path) params hs

/-! ## Predicates used in the statements -/

/-- The value is a Go string. -/
def Val.isStr : Val → Bool
  | .str _ => true
  | .other _ => false

/-- Every value of the map is a string (a nil map has no values). -/
def StringValued (m : Option (GoMap Val)) : Prop :=
  ∀ e ∈ rangeOf m, e.2.isStr = true

instance (m : Option (GoMap Val)) : Decidable (StringValued m) :=
  inferInstanceAs (Decidable (∀ e ∈ rangeOf m, e.2.isStr = true))

/-- The value the map holds under `k` (`none` for a nil map or a missing key). -/
def valueAt (m : Option (GoMap Val)) (k : String) : Option Val :=
  m.bind fun m => m.lookup k

/-- The values an `http.Header` or `url.Values` holds under `k`. -/
def MultiMap.valuesAt (m : MultiMap) (k : String) : List String :=
  (m.lookup k).getD []

/-- The status contract of a call that returns: a non-nil error comes with
status -1, and a nil error with the status code of the response that
`client.Do` returned for the request that was sent. -/
def StatusContract (env : Env) (out : Outcome) (sent : Option (Client × Request)) : Prop :=
  (∀ s e, out = .ret s (some e) → s = -1) ∧
  (∀ s, out = .ret s none →
    ∃ c req resp, sent = some (c, req) ∧ env.Do c req = .ok resp ∧ s = resp.StatusCode)

/-- The query string of the request that was sent, if one was. -/
def sentQuery (sent : Option (Client × Request)) : Option String :=
  sent.map fun p => p.2.URL.RawQuery

/-- The values the request that was sent carries under header `k`, if one was
sent. -/
def sentValues (sent : Option (Client × Request)) (k : String) : Option (List String) :=
  sent.map fun p => p.2.Header.valuesAt k

/-- The timeout of the client that did the round trip, if there was one. -/
def sentTimeout (sent : Option (Client × Request)) : Option Int :=
  sent.map fun p => p.1.Timeout

/-! ## A sample world -/

/-- JSON text of a body whose keys and values are strings that JSON writes
unescaped (letters, digits): `null` for the nil map, else the object with its
keys sorted, as `json.Marshal` writes it. -/
def sampleJSON (b : Body) : String :=
  match b with
  | none => "null"
  | some m =>
    "\x7b" ++ ",".intercalate ((m.keys.insertionSort strLE).map fun k =>
      "\"" ++ k ++ "\":\"" ++ (match m.lookup k with | some (.str s) => s | _ => "") ++ "\"")
    ++ "\x7d"

/-- One world to run the package in. Its URL parser knows three URLs, for
which it returns what `url.Parse` returns, and rejects every other string, as
`url.Parse` rejects the string `:` (missing protocol scheme); none of the three
has a query. A body marshals unless it holds a value that is not a string
(which stands for one `json.Marshal` has no encoding for, a channel). The host
`h` answers 200, with a JSON object on path `/x` and with plain text elsewhere;
no other host is reachable. -/
def sampleEnv : Env where
  parse := fun raw =>
    if raw = "http://h/x" then .ok ⟨"http", "h", "/x", "", ""⟩
    else if raw = "http://h/text" then .ok ⟨"http", "h", "/text", "", ""⟩
    else if raw = "http://down/x" then .ok ⟨"http", "down", "/x", "", ""⟩
    else .error "parse: not a URL of the sample world"
  parseQuery := fun _ => ∅
  marshal := fun b =>
    if (rangeOf b).all (fun e => e.2.isStr) then .ok (sampleJSON b)
    else .error "json: unsupported type"
  Do := fun _ req =>
    if req.URL.Host = "h" then
      if req.URL.Path = "/x" then .ok ⟨200, "\x7b\"x\":1\x7d"⟩ else .ok ⟨200, "hello"⟩
    else .error "dial tcp: connection refused"
  decode := fun body =>
    if body = "\x7b\"x\":1\x7d" then none
    else some "invalid character looking for beginning of value"

/-- The one-entry map `k: v` with a string value. -/
def entry (k v : String) : GoMap Val :=
  (∅ : GoMap Val).insert k (.str v)


/-! ## Lemmas on maps -/

theorem valuesAt_append (m : MultiMap) (k v j : String) :
    (m.append k v).valuesAt j = if j = k then m.valuesAt k ++ [v] else m.valuesAt j := by
  unfold MultiMap.append MultiMap.valuesAt
  by_cases h : j = k
  · subst h
    simp [AList.lookup_insert]
  · simp [h, AList.lookup_insert_ne h]

theorem mem_valuesAt_append_self (m : MultiMap) (k v : String) :
    v ∈ (m.append k v).valuesAt k := by
  simp [valuesAt_append]

theorem mem_valuesAt_append_of_mem (m : MultiMap) (k v j s : String)
    (h : s ∈ m.valuesAt j) : s ∈ (m.append k v).valuesAt j := by
  rw [valuesAt_append]
  by_cases hj : j = k
  · subst hj
    simp [h]
  · simpa [hj] using h

theorem mem_keys_of_mem_valuesAt (m : MultiMap) (k s : String) (h : s ∈ m.valuesAt k) :
    k ∈ m.keys := by
  unfold MultiMap.valuesAt at h
  rw [← AList.mem_keys, ← AList.lookup_isSome]
  cases hl : m.lookup k with
  | none => simp [hl] at h
  | some vs => simp

/-- On string values the loop of `addAll` runs to its end. -/
theorem addAll_isSome (add : MultiMap → String → String → MultiMap)
    (es : List (Sigma fun _ : String => Val)) (hs : ∀ e ∈ es, e.2.isStr = true)
    (acc : MultiMap) : ∃ q, addAll add acc es = some q := by
  induction es generalizing acc with
  | nil => exact ⟨acc, rfl⟩
  | cons e rest ih =>
    obtain ⟨k, v⟩ := e
    cases v with
    | str s =>
      simp only [addAll]
      exact ih (fun e he => hs e (List.mem_cons_of_mem _ he)) _
    | other t =>
      have := hs ⟨k, .other t⟩ (List.mem_cons_self _ _)
      simp [Val.isStr] at this

/-- What the accumulator holds before the loop of `addAll` it holds after. -/
theorem addAll_keeps (add : MultiMap → String → String → MultiMap) (f : String → String)
    (hadd : ∀ m k v, add m k v = m.append (f k) v)
    (es : List (Sigma fun _ : String => Val)) (acc q : MultiMap)
    (h : addAll add acc es = some q) (j s : String) (hm : s ∈ acc.valuesAt j) :
    s ∈ q.valuesAt j := by
  induction es generalizing acc with
  | nil =>
    simp only [addAll, Option.some.injEq] at h
    exact h ▸ hm
  | cons e rest ih =>
    obtain ⟨k, v⟩ := e
    cases v with
    | str t =>
      simp only [addAll] at h
      exact ih _ h (hadd acc k t ▸ mem_valuesAt_append_of_mem acc (f k) t j s hm)
    | other t => simp [addAll] at h

/-- Every entry the loop of `addAll` visits is added under its key. -/
theorem addAll_adds (add : MultiMap → String → String → MultiMap) (f : String → String)
    (hadd : ∀ m k v, add m k v = m.append (f k) v)
    (es : List (Sigma fun _ : String => Val)) (acc q : MultiMap)
    (h : addAll add acc es = some q) (k s : String) (hm : (⟨k, .str s⟩ : Sigma _) ∈ es) :
    s ∈ q.valuesAt (f k) := by
  induction es generalizing acc with
  | nil => simp at hm
  | cons e rest ih =>
    obtain ⟨k1, v⟩ := e
    cases v with
    | str t =>
      simp only [addAll] at h
      rcases List.mem_cons.mp hm with heq | hrest
      · cases heq
        exact addAll_keeps add f hadd rest _ q h (f k) s
          (hadd acc k s ▸ mem_valuesAt_append_self acc (f k) s)
      · exact ih _ h hrest
    | other t => simp [addAll] at h

/-- A value held under a key is written by `Values.Encode` as one of its
pieces. -/
theorem mem_pairs (v : MultiMap) (k s : String) (h : s ∈ v.valuesAt k) :
    QueryEscape k ++ "=" ++ QueryEscape s ∈ Values.pairs v := by
  unfold Values.pairs
  rw [List.mem_flatMap]
  refine ⟨k, ?_, ?_⟩
  · exact (List.perm_insertionSort strLE v.keys).mem_iff.mpr (mem_keys_of_mem_valuesAt v k s h)
  · exact List.mem_map.mpr ⟨s, h, rfl⟩


/-! ## Lemmas on the header maps -/

theorem isStr_insert (m : GoMap Val) (k : String) (v : Val) (hv : v.isStr = true)
    (hm : ∀ e ∈ m.entries, e.2.isStr = true) :
    ∀ e ∈ (m.insert k v).entries, e.2.isStr = true := by
  intro e he
  rw [AList.insert_entries] at he
  rcases List.mem_cons.mp he with heq | hk
  · subst heq
    exact hv
  · exact hm e ((List.kerase_sublist k m.entries).subset hk)

theorem stringValued_jsonHeaders (m : GoMap Val) (hm : StringValued (some m)) :
    StringValued (some (jsonHeaders m)) := by
  unfold jsonHeaders
  exact isStr_insert _ _ _ rfl (isStr_insert _ _ _ rfl hm)

theorem stringValued_empty : StringValued (some (∅ : GoMap Val)) := by
  intro e he
  simp [rangeOf] at he

/-- On a non-nil map the loop of `setAll` inserts the entries one by one. -/
theorem setAll_some (es : List (Sigma fun _ : String => Val)) (d : GoMap Val) :
    setAll (some d) es = some (some (es.foldl (fun a e => a.insert e.1 e.2) d)) := by
  induction es generalizing d with
  | nil => rfl
  | cons e rest ih =>
    obtain ⟨k, v⟩ := e
    simp only [setAll, List.foldl_cons]
    exact ih _

/-- The loop of `setAll` panics only on a nil map with an entry to assign, and
it keeps a string-valued map string-valued. -/
theorem setAll_stringValued (es : List (Sigma fun _ : String => Val))
    (hes : ∀ e ∈ es, e.2.isStr = true) (m : Headers) (hm : StringValued m)
    (hnil : m = none → es = []) : ∃ hs, setAll m es = some hs ∧ StringValued hs := by
  induction es generalizing m with
  | nil => exact ⟨m, by cases m <;> rfl, hm⟩
  | cons e rest ih =>
    cases m with
    | none => simp at hnil
    | some d =>
      obtain ⟨k, v⟩ := e
      simp only [setAll]
      refine ih (fun e he => hes e (List.mem_cons_of_mem _ he)) _ ?_ (by simp)
      exact isStr_insert d k v (hes ⟨k, v⟩ (List.mem_cons_self _ _)) hm

/-- After inserting entries with distinct keys one by one, a key of the
entries holds its entry's value and any other key the value it had. -/
theorem lookup_foldl_insert (es : List (Sigma fun _ : String => Val)) (nd : es.NodupKeys)
    (d : GoMap Val) (k : String) :
    (es.foldl (fun a e => a.insert e.1 e.2) d).lookup k =
      match es.dlookup k with
      | some v => some v
      | none => d.lookup k := by
  induction es generalizing d with
  | nil => rfl
  | cons e rest ih =>
    obtain ⟨k1, v⟩ := e
    rw [List.foldl_cons, ih (List.nodupKeys_of_nodupKeys_cons nd)]
    by_cases hk : k = k1
    · subst hk
      have hnot : k ∉ rest.keys := List.not_mem_keys_of_nodupKeys_cons nd
      rw [List.dlookup_eq_none.mpr hnot, List.dlookup_cons_eq]
      simp [AList.lookup_insert]
    · rw [List.dlookup_cons_ne _ _ hk]
      cases rest.dlookup k with
      | some w => rfl
      | none => simp [AList.lookup_insert_ne hk]

/-! ## Lemmas on the free functions -/

theorem send_sent (env : Env) (req : Request) (hs : Headers) :
    (send env req hs).sent = some (⟨0⟩, req) := by
  unfold send
  dsimp only
  split
  · rfl
  · split <;> rfl

theorem send_headers (env : Env) (req : Request) (hs : Headers) :
    (send env req hs).headers = hs := by
  unfold send
  dsimp only
  split
  · rfl
  · split <;> rfl

theorem send_status (env : Env) (req : Request) (hs : Headers) :
    StatusContract env (send env req hs).out (send env req hs).sent := by
  unfold send StatusContract
  dsimp only
  split
  · simp
  · rename_i resp hd
    split
    · simp
    · refine ⟨by simp, ?_⟩
      intro s hs1
      refine ⟨⟨0⟩, req, resp, rfl, hd, ?_⟩
      simpa using hs1.symm

/-- The request of `GetJSON` when nothing fails before the round trip: the
parsed URL with its query replaced by the encoding of its own query values
and the parameters. -/
theorem GetJSON_sent (env : Env) (url : String) (params : Params) (headers : Headers) (u : URL)
    (hu : env.parse url = .ok u) (hp : StringValued params) (hh : StringValued headers) :
    ∃ q h, addAll Values.Add (env.parseQuery u.RawQuery) (rangeOf params) = some q ∧
      (GetJSON env url params headers).sent =
        some (⟨0⟩, ⟨"GET", { u with RawQuery := Values.Encode q }, h, none⟩) := by
  obtain ⟨q, hq⟩ := addAll_isSome Values.Add (rangeOf params) hp (env.parseQuery u.RawQuery)
  have hjs : StringValued (some (jsonHeaders (headers.getD ∅))) := by
    apply stringValued_jsonHeaders
    cases headers with
    | none => exact stringValued_empty
    | some m => exact hh
  obtain ⟨h, hh1⟩ := addAll_isSome Header.Add (jsonHeaders (headers.getD ∅)).entries hjs ∅
  refine ⟨q, h, hq, ?_⟩
  simp only [GetJSON, NewRequest, hu, hq, hh1, send_sent]

/-- Whatever `GetJSON` sends, a client without timeout sends it, and its
headers are the entries of the caller's map after the two JSON assignments. -/
theorem GetJSON_sent_inv (env : Env) (url : String) (params : Params) (headers : Headers)
    (c : Client) (req : Request) (h : (GetJSON env url params headers).sent = some (c, req)) :
    c = ⟨0⟩ ∧ addAll Header.Add ∅ (jsonHeaders (headers.getD ∅)).entries = some req.Header := by
  cases hp : env.parse url with
  | error e => simp [GetJSON, NewRequest, hp] at h
  | ok u =>
    simp only [GetJSON, NewRequest, hp] at h
    split at h
    · simp at h
    · split at h
      · simp at h
      · rename_i hd hadd
        rw [send_sent] at h
        simp only [Option.some.injEq, Prod.mk.injEq] at h
        obtain ⟨h1, h2⟩ := h
        subst h2
        exact ⟨h1.symm, hadd⟩

theorem DeleteJSON_sent_inv (env : Env) (url : String) (params : Params) (headers : Headers)
    (c : Client) (req : Request) (h : (DeleteJSON env url params headers).sent = some (c, req)) :
    c = ⟨0⟩ ∧ addAll Header.Add ∅ (jsonHeaders (headers.getD ∅)).entries = some req.Header := by
  cases hp : env.parse url with
  | error e => simp [DeleteJSON, NewRequest, hp] at h
  | ok u =>
    simp only [DeleteJSON, NewRequest, hp] at h
    split at h
    · simp at h
    · rename_i hd hadd
      rw [send_sent] at h
      simp only [Option.some.injEq, Prod.mk.injEq] at h
      obtain ⟨h1, h2⟩ := h
      subst h2
      exact ⟨h1.symm, hadd⟩

theorem sendBody_sent_inv (env : Env) (method url : String) (body : Body) (headers : Headers)
    (c : Client) (req : Request)
    (h : (sendBody env method url body headers).sent = some (c, req)) :
    c = ⟨0⟩ ∧ ∃ m, headers = some m ∧
      addAll Header.Add ∅ (jsonHeaders m).entries = some req.Header := by
  cases hb : env.marshal body with
  | error e => simp [sendBody, hb] at h
  | ok b =>
    cases headers with
    | none => simp [sendBody, hb] at h
    | some m =>
      cases hp : env.parse url with
      | error e => simp [sendBody, hb, NewRequest, hp] at h
      | ok u =>
        simp only [sendBody, hb, NewRequest, hp] at h
        split at h
        · simp at h
        · rename_i hd hadd
          rw [send_sent] at h
          simp only [Option.some.injEq, Prod.mk.injEq] at h
          obtain ⟨h1, h2⟩ := h
          subst h2
          exact ⟨h1.symm, m, rfl, hadd⟩

theorem GetJSON_status (env : Env) (url : String) (params : Params) (headers : Headers) :
    StatusContract env (GetJSON env url params headers).out
      (GetJSON env url params headers).sent := by
  cases hp : env.parse url with
  | error e => simp [GetJSON, NewRequest, hp, StatusContract]
  | ok u =>
    simp only [GetJSON, NewRequest, hp]
    split
    · simp [StatusContract]
    · split
      · simp [StatusContract]
      · exact send_status env _ _

theorem DeleteJSON_status (env : Env) (url : String) (params : Params) (headers : Headers) :
    StatusContract env (DeleteJSON env url params headers).out
      (DeleteJSON env url params headers).sent := by
  cases hp : env.parse url with
  | error e => simp [DeleteJSON, NewRequest, hp, StatusContract]
  | ok u =>
    simp only [DeleteJSON, NewRequest, hp]
    split
    · simp [StatusContract]
    · exact send_status env _ _

theorem sendBody_status (env : Env) (method url : String) (body : Body) (headers : Headers) :
    StatusContract env (sendBody env method url body headers).out
      (sendBody env method url body headers).sent := by
  cases hb : env.marshal body with
  | error e => simp [sendBody, hb, StatusContract]
  | ok b =>
    cases headers with
    | none => simp [sendBody, hb, StatusContract]
    | some m =>
      cases hp : env.parse url with
      | error e => simp [sendBody, hb, NewRequest, hp, StatusContract]
      | ok u =>
        simp only [sendBody, hb, NewRequest, hp]
        split
        · simp [StatusContract]
        · exact send_status env _ _

/-- A free function leaves a non-nil `headers` map as it was, or with the two
JSON assignments made. -/
theorem GetJSON_headers (env : Env) (url : String) (params : Params) (m : GoMap Val) :
    (GetJSON env url params (some m)).headers = some m ∨
      (GetJSON env url params (some m)).headers = some (jsonHeaders m) := by
  cases hp : env.parse url with
  | error e => simp [GetJSON, NewRequest, hp]
  | ok u =>
    simp only [GetJSON, NewRequest, hp]
    split
    · simp
    · split
      · simp
      · rw [send_headers]
        simp

theorem DeleteJSON_headers (env : Env) (url : String) (params : Params) (m : GoMap Val) :
    (DeleteJSON env url params (some m)).headers = some m ∨
      (DeleteJSON env url params (some m)).headers = some (jsonHeaders m) := by
  cases hp : env.parse url with
  | error e => simp [DeleteJSON, NewRequest, hp]
  | ok u =>
    simp only [DeleteJSON, NewRequest, hp]
    split
    · simp
    · rw [send_headers]
      simp

theorem sendBody_headers (env : Env) (method url : String) (body : Body) (m : GoMap Val) :
    (sendBody env method url body (some m)).headers = some m ∨
      (sendBody env method url body (some m)).headers = some (jsonHeaders m) := by
  cases hb : env.marshal body with
  | error e => simp [sendBody, hb]
  | ok b =>
    cases hp : env.parse url with
    | error e => simp [sendBody, hb, NewRequest, hp]
    | ok u =>
      simp only [sendBody, hb, NewRequest, hp]
      split
      · simp
      · rw [send_headers]
        simp

/-- The two JSON assignments leave every other key as it was. -/
theorem lookup_jsonHeaders (m : GoMap Val) (k : String) (h1 : k ≠ "Content-Type")
    (h2 : k ≠ "Accept") : (jsonHeaders m).lookup k = m.lookup k := by
  unfold jsonHeaders
  rw [AList.lookup_insert_ne h2, AList.lookup_insert_ne h1]

/-! ## Lemmas on the handle methods -/

/-- A handle with a non-nil map hands the free function that map with the
per-call entries inserted. -/
theorem through_some (b : String) (d : GoMap Val) (c : Client) (h : Headers)
    (call : Headers → Run) :
    XHR.through ⟨b, some d, c⟩ h call =
      XHR.after ⟨b, some d, c⟩
        (call (some ((rangeOf h).foldl (fun a e => a.insert e.1 e.2) d))) := by
  simp only [XHR.through, setAll_some]

/-- The map a handle hands to the free function: a per-call value wins. -/
theorem lookup_merged (d : GoMap Val) (h : Headers) (k : String) :
    ((rangeOf h).foldl (fun a e => a.insert e.1 e.2) d).lookup k =
      match valueAt h k with
      | some v => some v
      | none => d.lookup k := by
  cases h with
  | none => rfl
  | some hm => exact lookup_foldl_insert hm.entries hm.nodupKeys d k

theorem through_status (env : Env) (x : XHR) (h : Headers) (call : Headers → Run)
    (hc : ∀ hs, StatusContract env (call hs).out (call hs).sent) :
    StatusContract env (x.through h call).out (x.through h call).sent := by
  unfold XHR.through
  split
  · simp [StatusContract]
  · exact hc _

theorem through_client (x : XHR) (h : Headers) (call : Headers → Run)
    (hc : ∀ hs c req, (call hs).sent = some (c, req) → c = ⟨0⟩) (c : Client) (req : Request)
    (hs : (x.through h call).sent = some (c, req)) : c = ⟨0⟩ := by
  unfold XHR.through at hs
  split at hs
  · simp at hs
  · exact hc _ c req hs

/-- The pieces of `Values.Encode` are exactly the escaped key-value pairs. -/
theorem mem_pairs_iff (v : MultiMap) (piece : String) :
    piece ∈ Values.pairs v ↔
      ∃ k s, s ∈ v.valuesAt k ∧ piece = QueryEscape k ++ "=" ++ QueryEscape s := by
  constructor
  · intro h
    unfold Values.pairs at h
    obtain ⟨k, _, hk⟩ := List.mem_flatMap.mp h
    obtain ⟨s, hs, rfl⟩ := List.mem_map.mp hk
    exact ⟨k, s, hs, rfl⟩
  · rintro ⟨k, s, hs, rfl⟩
    exact mem_pairs v k s hs

/-- The headers built from a map after the two JSON assignments: both JSON
headers carry `application/json`, and every other string entry of the map is
there under the canonical form of its key. -/
theorem header_values (m : GoMap Val) (h : MultiMap)
    (hadd : addAll Header.Add ∅ (jsonHeaders m).entries = some h) :
    "application/json" ∈ h.valuesAt "Content-Type" ∧
      "application/json" ∈ h.valuesAt "Accept" ∧
      ∀ k v, m.lookup k = some (.str v) → k ≠ "Content-Type" → k ≠ "Accept" →
        v ∈ h.valuesAt (CanonicalMIMEHeaderKey k) := by
  have key : ∀ k v, (jsonHeaders m).lookup k = some (.str v) →
      v ∈ h.valuesAt (CanonicalMIMEHeaderKey k) := by
    intro k v hk
    have hmem : (⟨k, .str v⟩ : Sigma fun _ : String => Val) ∈ (jsonHeaders m).entries :=
      AList.mem_lookup_iff.mp hk
    exact addAll_adds Header.Add CanonicalMIMEHeaderKey (fun _ _ _ => rfl) _ ∅ h hadd k v hmem
  refine ⟨?_, ?_, ?_⟩
  · have h1 : (jsonHeaders m).lookup "Content-Type" = some (.str "application/json") := by
      unfold jsonHeaders
      rw [AList.lookup_insert_ne (by decide), AList.lookup_insert]
    exact key _ _ h1
  · have h1 : (jsonHeaders m).lookup "Accept" = some (.str "application/json") := by
      unfold jsonHeaders
      rw [AList.lookup_insert]
    exact key _ _ h1
  · intro k v hk h1 h2
    exact key k v (by rw [lookup_jsonHeaders m k h1 h2]; exact hk)

/-- The shape of the Content-Type values when the caller's map has the name
under another spelling with another value. -/
theorem contentType_values (m : GoMap Val) (sent : Option (Client × Request)) (k v : String)
    (hk : m.lookup k = some (.str v)) (hne : k ≠ "Content-Type")
    (hcan : CanonicalMIMEHeaderKey k = "Content-Type") (hv : v ≠ "application/json")
    (hsent : ∀ c req, sent = some (c, req) →
      addAll Header.Add ∅ (jsonHeaders m).entries = some req.Header)
    (vs : List String) (hvs : sentValues sent "Content-Type" = some vs) :
    v ∈ vs ∧ "application/json" ∈ vs ∧ vs ≠ ["application/json"] := by
  cases sent with
  | none => simp [sentValues] at hvs
  | some p =>
    obtain ⟨c, req⟩ := p
    simp only [sentValues, Option.map_some', Option.some.injEq] at hvs
    subst hvs
    have hacc : k ≠ "Accept" := by
      intro hk2
      subst hk2
      exact absurd hcan (by decide)
    obtain ⟨h1, _, h3⟩ := header_values m req.Header (hsent c req rfl)
    have hmem : v ∈ req.Header.valuesAt "Content-Type" := hcan ▸ h3 k v hk hne hacc
    refine ⟨hmem, h1, ?_⟩
    intro heq
    rw [heq] at hmem
    simp at hmem
    exact hv hmem

theorem timeout_zero (sent : Option (Client × Request))
    (h : ∀ c req, sent = some (c, req) → c = ⟨0⟩) (t : Int)
    (ht : sentTimeout sent = some t) : t = 0 := by
  cases sent with
  | none => simp [sentTimeout] at ht
  | some p =>
    obtain ⟨c, req⟩ := p
    simp only [sentTimeout, Option.map_some', Option.some.injEq] at ht
    rw [← ht, h c req rfl]

/-- On string-valued maps `GetJSON` returns: it does not panic, with or
without a `headers` map, whether or not the URL parses. -/
theorem GetJSON_returns (env : Env) (url : String) (params : Params) (headers : Headers)
    (hp : StringValued params) (hh : StringValued headers) :
    ∃ s e, (GetJSON env url params headers).out = .ret s e := by
  cases hu : env.parse url with
  | error e => exact ⟨-1, some e, by simp [GetJSON, NewRequest, hu]⟩
  | ok u =>
    obtain ⟨q, hq⟩ := addAll_isSome Values.Add (rangeOf params) hp (env.parseQuery u.RawQuery)
    have hjs : StringValued (some (jsonHeaders (headers.getD ∅))) := by
      apply stringValued_jsonHeaders
      cases headers with
      | none => exact stringValued_empty
      | some m => exact hh
    obtain ⟨h, hh1⟩ := addAll_isSome Header.Add (jsonHeaders (headers.getD ∅)).entries hjs ∅
    simp only [GetJSON, NewRequest, hu, hq, hh1, send]
    split
    · exact ⟨_, _, rfl⟩
    · split <;> exact ⟨_, _, rfl⟩

/-- On string-valued headers `DeleteJSON` returns: it does not panic. -/
theorem DeleteJSON_returns (env : Env) (url : String) (params : Params) (headers : Headers)
    (hh : StringValued headers) :
    ∃ s e, (DeleteJSON env url params headers).out = .ret s e := by
  cases hu : env.parse url with
  | error e => exact ⟨-1, some e, by simp [DeleteJSON, NewRequest, hu]⟩
  | ok u =>
    have hjs : StringValued (some (jsonHeaders (headers.getD ∅))) := by
      apply stringValued_jsonHeaders
      cases headers with
      | none => exact stringValued_empty
      | some m => exact hh
    obtain ⟨h, hh1⟩ := addAll_isSome Header.Add (jsonHeaders (headers.getD ∅)).entries hjs ∅
    simp only [DeleteJSON, NewRequest, hu, hh1, send]
    split
    · exact ⟨_, _, rfl⟩
    · split <;> exact ⟨_, _, rfl⟩

/-- A per-call header other than the two JSON headers is in the handle's map
after the call of the free function, however that call ended. -/
theorem after_keeps (b : String) (d : GoMap Val) (c : Client) (h : Headers)
    (call : Headers → Run)
    (hcall : ∀ m, (call (some m)).headers = some m ∨ (call (some m)).headers = some (jsonHeaders m))
    (k : String) (v : Val) (hk : valueAt h k = some v) (h1 : k ≠ "Content-Type")
    (h2 : k ≠ "Accept") :
    valueAt (XHR.through ⟨b, some d, c⟩ h call).handle.Headers k = some v := by
  rw [through_some]
  have hm := lookup_merged d h k
  rw [hk] at hm
  simp only [XHR.after]
  rcases hcall ((rangeOf h).foldl (fun a e => a.insert e.1 e.2) d) with hc | hc
  · rw [hc]
    exact hm
  · rw [hc]
    show (jsonHeaders _).lookup k = some v
    rw [lookup_jsonHeaders _ k h1 h2]
    exact hm

/-! ## The claims -/

/-- C1 (as amended): the request that the handle's GetJSON sends for base URL
b, path p and a string-valued parameter map is a GET request for the URL that
b ++ p parses to, with its query string replaced by the `&`-joined pieces of
`Values.Encode`: every parameter k: v is there as the piece
QueryEscape k = QueryEscape v, and so is every piece of the query the URL
already had. A space is escaped as `+`: on a URL without query the parameter
map q: "a b" gives the query string q=a+b. -/
theorem C1_getjson_request_url (env : Env) (x : XHR) (path : String) (params : Params)
    (headers : Headers) (u : URL)
    (hu : env.parse (x.BaseURL ++ path) = .ok u)
    (hp : StringValued params) (hd : StringValued x.Headers) (hh : StringValued headers)
    (hnil : x.Headers = none → rangeOf headers = []) :
    ∃ q req,
      addAll Values.Add (env.parseQuery u.RawQuery) (rangeOf params) = some q ∧
      (XHR.GetJSON env x path params headers).sent = some (⟨0⟩, req) ∧
      req.Method = "GET" ∧
      req.URL = { u with RawQuery := "&".intercalate (Values.pairs q) } ∧
      (∀ k s, (⟨k, .str s⟩ : Sigma fun _ : String => Val) ∈ rangeOf params →
        QueryEscape k ++ "=" ++ QueryEscape s ∈ Values.pairs q) ∧
      (∀ piece ∈ Values.pairs (env.parseQuery u.RawQuery), piece ∈ Values.pairs q) ∧
      (env.parseQuery u.RawQuery = ∅ → params = some (entry "q" "a b") →
        req.URL.RawQuery = "q=a+b") := by
  obtain ⟨hs, hset, hsv⟩ := setAll_stringValued (rangeOf headers) hh x.Headers hd hnil
  obtain ⟨q, h, hq, hsent⟩ := GetJSON_sent env (x.BaseURL ++ path) params hs u hu hp hsv
  refine ⟨q, ⟨"GET", { u with RawQuery := Values.Encode q }, h, none⟩, hq, ?_, rfl, rfl, ?_, ?_, ?_⟩
  · simp only [XHR.GetJSON, XHR.through, hset, XHR.after, hsent]
  · intro k s hks
    exact mem_pairs q k s (addAll_adds Values.Add id (fun _ _ _ => rfl) _ _ q hq k s hks)
  · intro piece hpiece
    obtain ⟨k, s, hks, rfl⟩ := (mem_pairs_iff _ _).mp hpiece
    exact mem_pairs q k s (addAll_keeps Values.Add id (fun _ _ _ => rfl) _ _ q hq k s hks)
  · intro h0 hpar
    rw [h0, hpar] at hq
    have hq1 : some (Values.Add ∅ "q" "a b") = some q := hq
    cases hq1
    show Values.Encode (Values.Add ∅ "q" "a b") = "q=a+b"
    decide

/-- C1, witness: the sample world, a handle for http://h, path /x and the
parameter q: "a b". -/
theorem C1_getjson_request_url_witness :
    ∃ q req,
      addAll Values.Add (sampleEnv.parseQuery "") (rangeOf (some (entry "q" "a b"))) = some q ∧
      (XHR.GetJSON sampleEnv ⟨"http://h", some ∅, ⟨0⟩⟩ "/x" (some (entry "q" "a b")) none).sent
        = some (⟨0⟩, req) ∧
      req.Method = "GET" ∧
      req.URL = { (⟨"http", "h", "/x", "", ""⟩ : URL) with
        RawQuery := "&".intercalate (Values.pairs q) } ∧
      (∀ k s, (⟨k, .str s⟩ : Sigma fun _ : String => Val) ∈ rangeOf (some (entry "q" "a b")) →
        QueryEscape k ++ "=" ++ QueryEscape s ∈ Values.pairs q) ∧
      (∀ piece ∈ Values.pairs (sampleEnv.parseQuery ""), piece ∈ Values.pairs q) ∧
      (sampleEnv.parseQuery "" = ∅ → some (entry "q" "a b") = some (entry "q" "a b") →
        req.URL.RawQuery = "q=a+b") :=
  C1_getjson_request_url sampleEnv ⟨"http://h", some ∅, ⟨0⟩⟩ "/x" (some (entry "q" "a b")) none
    ⟨"http", "h", "/x", "", ""⟩ (by rfl) (by decide) (by decide) (by decide) (by simp)

/-- C1, counterexample to the claim as stated: for the parameter map
q: "a b" the query string of the request is q=a+b, not q=a%20b. -/
theorem C1_query_space_is_plus :
    sentQuery (XHR.GetJSON sampleEnv ⟨"http://h", some ∅, ⟨0⟩⟩ "/x"
        (some (entry "q" "a b")) none).sent = some "q=a+b" ∧
      sentQuery (XHR.GetJSON sampleEnv ⟨"http://h", some ∅, ⟨0⟩⟩ "/x"
        (some (entry "q" "a b")) none).sent ≠ some "q=a%20b" := by
  decide

/-- C2 (the code departs from the claim): DeleteJSON, free function and handle
method, never reads its parameter map; the call is the same call with no
parameters at all, so no parameter reaches the query string. -/
theorem C2_delete_ignores_params (env : Env) (url path : String) (x : XHR) (params : Params)
    (headers : Headers) :
    DeleteJSON env url params headers = DeleteJSON env url none headers ∧
      XHR.DeleteJSON env x path params headers = XHR.DeleteJSON env x path none headers :=
  ⟨rfl, rfl⟩

/-- C2 at the failing input: with the parameter q: "1" the DELETE request is
sent with an empty query string, by the free function and by the handle
method, where GetJSON sends q=1. -/
theorem C2_delete_failing_input :
    sentQuery (DeleteJSON sampleEnv "http://h/x" (some (entry "q" "1")) none).sent = some "" ∧
      sentQuery (XHR.DeleteJSON sampleEnv ⟨"http://h", some ∅, ⟨0⟩⟩ "/x"
        (some (entry "q" "1")) none).sent = some "" ∧
      sentQuery (GetJSON sampleEnv "http://h/x" (some (entry "q" "1")) none).sent
        = some "q=1" := by
  decide

/-- C3: for each of the four handle methods, a handle with default headers d
called with per-call headers h runs the free function on base URL ++ path with
one header mapping m, and m is the merge of d and h in which h wins: a name in
h carries the value of h, any other name the value it has in d (none if it is
not in d). -/
theorem C3_handle_headers_merge (env : Env) (b : String) (d : GoMap Val) (c : Client)
    (h : Headers) (path : String) (params : Params) (body : Body) :
    ∃ m : GoMap Val,
      (∀ k, m.lookup k = match valueAt h k with
                         | some v => some v
                         | none => d.lookup k) ∧
      XHR.GetJSON env ⟨b, some d, c⟩ path params h =
        XHR.after ⟨b, some d, c⟩ (GetJSON env (b ++ path) params (some m)) ∧
      XHR.PostJSON env ⟨b, some d, c⟩ path body h =
        XHR.after ⟨b, some d, c⟩ (PostJSON env (b ++ path) body (some m)) ∧
      XHR.PutJSON env ⟨b, some d, c⟩ path body h =
        XHR.after ⟨b, some d, c⟩ (PutJSON env (b ++ path) body (some m)) ∧
      XHR.DeleteJSON env ⟨b, some d, c⟩ path params h =
        XHR.after ⟨b, some d, c⟩ (DeleteJSON env (b ++ path) params (some m)) := by
  refine ⟨(rangeOf h).foldl (fun a e => a.insert e.1 e.2) d, lookup_merged d h, ?_, ?_, ?_, ?_⟩
  · exact through_some b d c h _
  · exact through_some b d c h _
  · exact through_some b d c h _
  · exact through_some b d c h _

/-- C6: New fails exactly on the empty base URL, and then returns no handle;
on any other base URL it returns the handle with that base URL, the supplied
header mapping (an empty one when the argument is nil) and a client with the
given timeout. -/
theorem C6_new (baseURL : String) (headers : Headers) (timeout : Int) :
    ((∃ e, New baseURL headers timeout = .error e) ↔ baseURL = "") ∧
      (baseURL ≠ "" →
        New baseURL headers timeout =
          .ok ⟨baseURL, (match headers with
                         | some m => some m
                         | none => some ∅), ⟨timeout⟩⟩) := by
  unfold New
  by_cases h : baseURL = ""
  · simp [h]
  · cases headers <;> simp [h]

/-- C6 at concrete inputs: the empty base URL, and a base URL with and without
a header mapping. -/
theorem C6_new_examples :
    New "" (some (entry "A" "1")) 5 = .error "parameter \"baseURL\" is required" ∧
      New "http://h" none 5 = .ok ⟨"http://h", some ∅, ⟨5⟩⟩ ∧
      New "http://h" (some (entry "A" "1")) 5 = .ok ⟨"http://h", some (entry "A" "1"), ⟨5⟩⟩ :=
  ⟨rfl, rfl, rfl⟩

/-- C7: whenever one of the four free functions or one of the four handle
methods returns, a non-nil error comes with status -1 and a nil error with the
status code of the response that the client returned for the request sent. -/
theorem C7_status_contract (env : Env) (url path : String) (x : XHR) (params : Params)
    (body : Body) (headers : Headers) :
    StatusContract env (GetJSON env url params headers).out
        (GetJSON env url params headers).sent ∧
      StatusContract env (PostJSON env url body headers).out
        (PostJSON env url body headers).sent ∧
      StatusContract env (PutJSON env url body headers).out
        (PutJSON env url body headers).sent ∧
      StatusContract env (DeleteJSON env url params headers).out
        (DeleteJSON env url params headers).sent ∧
      StatusContract env (XHR.GetJSON env x path params headers).out
        (XHR.GetJSON env x path params headers).sent ∧
      StatusContract env (XHR.PostJSON env x path body headers).out
        (XHR.PostJSON env x path body headers).sent ∧
      StatusContract env (XHR.PutJSON env x path body headers).out
        (XHR.PutJSON env x path body headers).sent ∧
      StatusContract env (XHR.DeleteJSON env x path params headers).out
        (XHR.DeleteJSON env x path params headers).sent :=
  ⟨GetJSON_status env url params headers,
    sendBody_status env "POST" url body headers,
    sendBody_status env "PUT" url body headers,
    DeleteJSON_status env url params headers,
    through_status env x headers _ (fun hs => GetJSON_status env _ params hs),
    through_status env x headers _ (fun hs => sendBody_status env "POST" _ body hs),
    through_status env x headers _ (fun hs => sendBody_status env "PUT" _ body hs),
    through_status env x headers _ (fun hs => DeleteJSON_status env _ params hs)⟩

/-- C7 at concrete inputs: a reachable host gives (200, nil), an unreachable
host, a URL that does not parse and a body that is not JSON give -1 with an
error. -/
theorem C7_status_examples :
    (GetJSON sampleEnv "http://h/x" none none).out = .ret 200 none ∧
      (GetJSON sampleEnv "http://down/x" none none).out
        = .ret (-1) (some "dial tcp: connection refused") ∧
      (GetJSON sampleEnv ":" none none).out
        = .ret (-1) (some "parse: not a URL of the sample world") ∧
      (PostJSON sampleEnv "http://h/text" none (some ∅)).out
        = .ret (-1) (some "invalid character looking for beginning of value") := by
  decide

/-- C4 (the code departs from the claim): the request always carries
application/json among the values of Content-Type, but not as the only value
when the caller's mapping has the name under another spelling: its value v is
sent as a Content-Type value too, for each of the four free functions (which
the handle methods call). -/
theorem C4_other_spelling_is_sent_too (env : Env) (url : String) (params : Params) (body : Body)
    (m : GoMap Val) (k v : String)
    (hk : m.lookup k = some (.str v)) (hne : k ≠ "Content-Type")
    (hcan : CanonicalMIMEHeaderKey k = "Content-Type") (hv : v ≠ "application/json") :
    (∀ vs, sentValues (GetJSON env url params (some m)).sent "Content-Type" = some vs →
        v ∈ vs ∧ "application/json" ∈ vs ∧ vs ≠ ["application/json"]) ∧
      (∀ vs, sentValues (PostJSON env url body (some m)).sent "Content-Type" = some vs →
        v ∈ vs ∧ "application/json" ∈ vs ∧ vs ≠ ["application/json"]) ∧
      (∀ vs, sentValues (PutJSON env url body (some m)).sent "Content-Type" = some vs →
        v ∈ vs ∧ "application/json" ∈ vs ∧ vs ≠ ["application/json"]) ∧
      (∀ vs, sentValues (DeleteJSON env url params (some m)).sent "Content-Type" = some vs →
        v ∈ vs ∧ "application/json" ∈ vs ∧ vs ≠ ["application/json"]) := by
  refine ⟨?_, ?_, ?_, ?_⟩
  · refine contentType_values m _ k v hk hne hcan hv ?_
    intro c req hs
    exact (GetJSON_sent_inv env url params (some m) c req hs).2
  · refine contentType_values m _ k v hk hne hcan hv ?_
    intro c req hs
    obtain ⟨_, m1, hm1, hadd⟩ := sendBody_sent_inv env "POST" url body (some m) c req hs
    cases hm1
    exact hadd
  · refine contentType_values m _ k v hk hne hcan hv ?_
    intro c req hs
    obtain ⟨_, m1, hm1, hadd⟩ := sendBody_sent_inv env "PUT" url body (some m) c req hs
    cases hm1
    exact hadd
  · refine contentType_values m _ k v hk hne hcan hv ?_
    intro c req hs
    exact (DeleteJSON_sent_inv env url params (some m) c req hs).2

/-- C4 at the failing input: with the per-call header content-type: text/plain
each of the four requests carries two Content-Type values. -/
theorem C4_failing_input :
    ((∀ vs, sentValues (GetJSON sampleEnv "http://h/x" none
          (some (entry "content-type" "text/plain"))).sent "Content-Type" = some vs →
        "text/plain" ∈ vs ∧ "application/json" ∈ vs ∧ vs ≠ ["application/json"]) ∧
      (∀ vs, sentValues (PostJSON sampleEnv "http://h/x" none
          (some (entry "content-type" "text/plain"))).sent "Content-Type" = some vs →
        "text/plain" ∈ vs ∧ "application/json" ∈ vs ∧ vs ≠ ["application/json"]) ∧
      (∀ vs, sentValues (PutJSON sampleEnv "http://h/x" none
          (some (entry "content-type" "text/plain"))).sent "Content-Type" = some vs →
        "text/plain" ∈ vs ∧ "application/json" ∈ vs ∧ vs ≠ ["application/json"]) ∧
      (∀ vs, sentValues (DeleteJSON sampleEnv "http://h/x" none
          (some (entry "content-type" "text/plain"))).sent "Content-Type" = some vs →
        "text/plain" ∈ vs ∧ "application/json" ∈ vs ∧ vs ≠ ["application/json"])) ∧
      sentValues (GetJSON sampleEnv "http://h/x" none
          (some (entry "content-type" "text/plain"))).sent "Content-Type"
        = some ["application/json", "text/plain"] ∧
      sentValues (PostJSON sampleEnv "http://h/x" none
          (some (entry "content-type" "text/plain"))).sent "Content-Type"
        = some ["application/json", "text/plain"] ∧
      sentValues (GetJSON sampleEnv "http://h/x" none
          (some (entry "ACCEPT" "text/html"))).sent "Accept"
        = some ["application/json", "text/html"] ∧
      sentValues (GetJSON sampleEnv "http://h/x" none
          (some (entry "Content-Type" "text/plain"))).sent "Content-Type"
        = some ["application/json"] :=
  ⟨C4_other_spelling_is_sent_too sampleEnv "http://h/x" none none
      (entry "content-type" "text/plain") "content-type" "text/plain"
      (by decide) (by decide) (by decide) (by decide),
    by decide, by decide, by decide, by decide⟩

/-- C5 (the code departs from the claim): a handle method works on the
handle's own map, so a per-call header k: v (other than the two JSON headers)
is among the handle's stored default headers after the call, for each of the
four methods and however the call ended. -/
theorem C5_percall_header_stays (env : Env) (b : String) (d : GoMap Val) (c : Client)
    (path : String) (params : Params) (body : Body) (h : Headers) (k : String) (v : Val)
    (hk : valueAt h k = some v) (h1 : k ≠ "Content-Type") (h2 : k ≠ "Accept") :
    valueAt (XHR.GetJSON env ⟨b, some d, c⟩ path params h).handle.Headers k = some v ∧
      valueAt (XHR.PostJSON env ⟨b, some d, c⟩ path body h).handle.Headers k = some v ∧
      valueAt (XHR.PutJSON env ⟨b, some d, c⟩ path body h).handle.Headers k = some v ∧
      valueAt (XHR.DeleteJSON env ⟨b, some d, c⟩ path params h).handle.Headers k = some v :=
  ⟨after_keeps b d c h _ (fun m => GetJSON_headers env _ params m) k v hk h1 h2,
    after_keeps b d c h _ (fun m => sendBody_headers env "POST" _ body m) k v hk h1 h2,
    after_keeps b d c h _ (fun m => sendBody_headers env "PUT" _ body m) k v hk h1 h2,
    after_keeps b d c h _ (fun m => DeleteJSON_headers env _ params m) k v hk h1 h2⟩

/-- C5 at the failing input: a handle made by New without default headers is
called once with the per-call header X-Trace: 1; afterwards its stored headers
hold X-Trace and the two JSON headers, and a second call without per-call
headers sends X-Trace: 1. -/
theorem C5_failing_input :
    (valueAt (XHR.GetJSON sampleEnv ⟨"http://h", some ∅, ⟨0⟩⟩ "/x" none
          (some (entry "X-Trace" "1"))).handle.Headers "X-Trace" = some (.str "1") ∧
      valueAt (XHR.PostJSON sampleEnv ⟨"http://h", some ∅, ⟨0⟩⟩ "/x" none
          (some (entry "X-Trace" "1"))).handle.Headers "X-Trace" = some (.str "1") ∧
      valueAt (XHR.PutJSON sampleEnv ⟨"http://h", some ∅, ⟨0⟩⟩ "/x" none
          (some (entry "X-Trace" "1"))).handle.Headers "X-Trace" = some (.str "1") ∧
      valueAt (XHR.DeleteJSON sampleEnv ⟨"http://h", some ∅, ⟨0⟩⟩ "/x" none
          (some (entry "X-Trace" "1"))).handle.Headers "X-Trace" = some (.str "1")) ∧
      New "http://h" none 0 = .ok ⟨"http://h", some ∅, ⟨0⟩⟩ ∧
      (XHR.GetJSON sampleEnv ⟨"http://h", some ∅, ⟨0⟩⟩ "/x" none
          (some (entry "X-Trace" "1"))).handle.Headers
        = some (jsonHeaders (entry "X-Trace" "1")) ∧
      sentValues (XHR.GetJSON sampleEnv
          (XHR.GetJSON sampleEnv ⟨"http://h", some ∅, ⟨0⟩⟩ "/x" none
            (some (entry "X-Trace" "1"))).handle "/x" none none).sent "X-Trace"
        = some ["1"] ∧
      sentValues (XHR.GetJSON sampleEnv ⟨"http://h", some ∅, ⟨0⟩⟩ "/x" none none).sent "X-Trace"
        = some [] :=
  ⟨C5_percall_header_stays sampleEnv "http://h" ∅ ⟨0⟩ "/x" none none
      (some (entry "X-Trace" "1")) "X-Trace" (.str "1") (by decide) (by decide) (by decide),
    rfl, rfl, by decide, by decide⟩

/-- C8 (the code departs from the claim): when the body does not marshal,
PostJSON and PutJSON end the process with exit code 1 (`log.Fatalln`); no
error is returned to the caller. No request is sent, and the headers map is
not written to. The same holds through a handle. -/
theorem C8_marshal_failure_exits (env : Env) (url path b : String) (d : GoMap Val) (c : Client)
    (body : Body) (headers : Headers) (e : String) (hb : env.marshal body = .error e) :
    PostJSON env url body headers = ⟨.exit 1, headers, none⟩ ∧
      PutJSON env url body headers = ⟨.exit 1, headers, none⟩ ∧
      (XHR.PostJSON env ⟨b, some d, c⟩ path body headers).out = .exit 1 ∧
      (XHR.PostJSON env ⟨b, some d, c⟩ path body headers).sent = none ∧
      (XHR.PutJSON env ⟨b, some d, c⟩ path body headers).out = .exit 1 ∧
      (XHR.PutJSON env ⟨b, some d, c⟩ path body headers).sent = none := by
  have key : ∀ method url hs, sendBody env method url body hs = ⟨.exit 1, hs, none⟩ := by
    intro method url hs
    simp only [sendBody, hb]
  refine ⟨key _ _ _, key _ _ _, ?_, ?_, ?_, ?_⟩
  · simp only [XHR.PostJSON, through_some, XHR.after, PostJSON, key]
  · simp only [XHR.PostJSON, through_some, XHR.after, PostJSON, key]
  · simp only [XHR.PutJSON, through_some, XHR.after, PutJSON, key]
  · simp only [XHR.PutJSON, through_some, XHR.after, PutJSON, key]

/-- C8 at the failing input: a body with a value that `json.Marshal` cannot
encode (a channel). -/
theorem C8_failing_input :
    (PostJSON sampleEnv "http://h/x" (some ((∅ : GoMap Val).insert "c" (.other 0))) (some ∅)
        = ⟨.exit 1, some ∅, none⟩ ∧
      PutJSON sampleEnv "http://h/x" (some ((∅ : GoMap Val).insert "c" (.other 0))) (some ∅)
        = ⟨.exit 1, some ∅, none⟩ ∧
      (XHR.PostJSON sampleEnv ⟨"http://h", some ∅, ⟨0⟩⟩ "/x"
        (some ((∅ : GoMap Val).insert "c" (.other 0))) (some ∅)).out = .exit 1 ∧
      (XHR.PostJSON sampleEnv ⟨"http://h", some ∅, ⟨0⟩⟩ "/x"
        (some ((∅ : GoMap Val).insert "c" (.other 0))) (some ∅)).sent = none ∧
      (XHR.PutJSON sampleEnv ⟨"http://h", some ∅, ⟨0⟩⟩ "/x"
        (some ((∅ : GoMap Val).insert "c" (.other 0))) (some ∅)).out = .exit 1 ∧
      (XHR.PutJSON sampleEnv ⟨"http://h", some ∅, ⟨0⟩⟩ "/x"
        (some ((∅ : GoMap Val).insert "c" (.other 0))) (some ∅)).sent = none) ∧
      (PostJSON sampleEnv "http://h/x" (some (entry "a" "b")) (some ∅)).out = .ret 200 none :=
  ⟨C8_marshal_failure_exits sampleEnv "http://h/x" "/x" "http://h" ∅ ⟨0⟩
      (some ((∅ : GoMap Val).insert "c" (.other 0))) (some ∅) "json: unsupported type" (by rfl),
    by decide⟩

/-- C9 (the code departs from the claim): PostJSON and PutJSON panic on a nil
headers argument (they assign to the nil map), and on a URL that does not
parse (they use the nil request), whenever the body marshals. -/
theorem C9_post_put_panic (env : Env) (url : String) (body : Body) (b : String)
    (hb : env.marshal body = .ok b) :
    (PostJSON env url body none).out = .panic .nilMapWrite ∧
      (PutJSON env url body none).out = .panic .nilMapWrite ∧
      (∀ m e, env.parse url = .error e →
        (PostJSON env url body (some m)).out = .panic .nilDeref ∧
        (PutJSON env url body (some m)).out = .panic .nilDeref) := by
  refine ⟨?_, ?_, ?_⟩
  · simp only [PostJSON, sendBody, hb]
  · simp only [PutJSON, sendBody, hb]
  · intro m e he
    simp only [PostJSON, PutJSON, sendBody, hb, NewRequest, he, and_self]

/-- C9 at the failing inputs: a nil headers argument with a good URL, and a
URL that does not parse with an empty headers map; on the same inputs GetJSON
and DeleteJSON return. -/
theorem C9_failing_input :
    ((PostJSON sampleEnv "http://h/x" none none).out = .panic .nilMapWrite ∧
      (PutJSON sampleEnv "http://h/x" none none).out = .panic .nilMapWrite ∧
      (∀ m e, sampleEnv.parse "http://h/x" = .error e →
        (PostJSON sampleEnv "http://h/x" none (some m)).out = .panic .nilDeref ∧
        (PutJSON sampleEnv "http://h/x" none (some m)).out = .panic .nilDeref)) ∧
      (PostJSON sampleEnv ":" none (some ∅)).out = .panic .nilDeref ∧
      (PutJSON sampleEnv ":" none (some ∅)).out = .panic .nilDeref ∧
      (GetJSON sampleEnv "http://h/x" none none).out = .ret 200 none ∧
      (DeleteJSON sampleEnv "http://h/x" none none).out = .ret 200 none ∧
      (GetJSON sampleEnv ":" none (some ∅)).out
        = .ret (-1) (some "parse: not a URL of the sample world") ∧
      (DeleteJSON sampleEnv ":" none (some ∅)).out
        = .ret (-1) (some "parse: not a URL of the sample world") :=
  ⟨C9_post_put_panic sampleEnv "http://h/x" none "null" (by rfl),
    by decide, by decide, by decide, by decide, by decide, by decide⟩

/-- C10 (the code departs from the claim): whatever request a handle method
sends, a client with timeout zero (no timeout) sends it, whatever the timeout
of the handle's own client. -/
theorem C10_client_has_no_timeout (env : Env) (x : XHR) (path : String) (params : Params)
    (body : Body) (headers : Headers) (t : Int) :
    (sentTimeout (XHR.GetJSON env x path params headers).sent = some t → t = 0) ∧
      (sentTimeout (XHR.PostJSON env x path body headers).sent = some t → t = 0) ∧
      (sentTimeout (XHR.PutJSON env x path body headers).sent = some t → t = 0) ∧
      (sentTimeout (XHR.DeleteJSON env x path params headers).sent = some t → t = 0) := by
  refine ⟨?_, ?_, ?_, ?_⟩
  · exact timeout_zero _ (through_client x headers _
      (fun hs c req h => (GetJSON_sent_inv env _ params hs c req h).1)) t
  · exact timeout_zero _ (through_client x headers _
      (fun hs c req h => (sendBody_sent_inv env "POST" _ body hs c req h).1)) t
  · exact timeout_zero _ (through_client x headers _
      (fun hs c req h => (sendBody_sent_inv env "PUT" _ body hs c req h).1)) t
  · exact timeout_zero _ (through_client x headers _
      (fun hs c req h => (DeleteJSON_sent_inv env _ params hs c req h).1)) t

/-- C10 at the failing input: a handle made by New with a timeout of five
seconds sends its requests through a client with timeout zero. -/
theorem C10_failing_input :
    New "http://h" none 5000000000 = .ok ⟨"http://h", some ∅, ⟨5000000000⟩⟩ ∧
      sentTimeout (XHR.GetJSON sampleEnv ⟨"http://h", some ∅, ⟨5000000000⟩⟩ "/x"
        none none).sent = some 0 ∧
      sentTimeout (XHR.PostJSON sampleEnv ⟨"http://h", some ∅, ⟨5000000000⟩⟩ "/x"
        none none).sent = some 0 ∧
      sentTimeout (XHR.PutJSON sampleEnv ⟨"http://h", some ∅, ⟨5000000000⟩⟩ "/x"
        none none).sent = some 0 ∧
      sentTimeout (XHR.DeleteJSON sampleEnv ⟨"http://h", some ∅, ⟨5000000000⟩⟩ "/x"
        none none).sent = some 0 :=
  ⟨rfl, by decide, by decide, by decide, by decide⟩

end Fetch
